import Mathlib

/-!
Verification development for the MGT-GO market-data collection engine.

The Go source is shallowly embedded: Go maps with string keys become
association lists (deterministic first-match lookup), float64 quantities
(timestamps, intervals, seconds) become rationals, machine integers become
Int or Nat, and effectful calls (HTTP attempts, per-date SQL flushes, the
timezone database) become explicit oracle parameters.  Go map iteration
order is modelled as first-encounter order of the underlying association
list.  Each embedded definition keeps the name of the Go function it
embeds.
-/

namespace MGT

/-- Dynamic values as they occur in decoded JSON objects, i.e. the Go type
map string to interface.  Numbers are modelled as rationals. -/
inductive GoValue where
  | null : GoValue
  | num : ℚ → GoValue
  | str : String → GoValue
  | boolean : Bool → GoValue
  | arr : List GoValue → GoValue
  | obj : List (String × GoValue) → GoValue

/-- Association-list lookup: first binding of the key, as in a Go map read. -/
def alookup {α : Type} (m : List (String × α)) (k : String) : Option α :=
  match m with
  | [] => none
  | (k2, v) :: rest => if k2 = k then some v else alookup rest k

/-- Association-list update: replace the first binding of the key, or append
a new binding; models a Go map write. -/
def aset {α : Type} (m : List (String × α)) (k : String) (v : α) : List (String × α) :=
  match m with
  | [] => [(k, v)]
  | (k2, v2) :: rest => if k2 = k then (k2, v) :: rest else (k2, v2) :: aset rest k v

/-- Association-list deletion: drop every binding of the key; models a Go
map delete. -/
def adel {α : Type} (m : List (String × α)) (k : String) : List (String × α) :=
  match m with
  | [] => []
  | (k2, v2) :: rest => if k2 = k then adel rest k else (k2, v2) :: adel rest k

theorem alookup_aset {α : Type} (m : List (String × α)) (k q : String) (v : α) :
    alookup (aset m k v) q = if k = q then some v else alookup m q := by
  induction m with
  | nil =>
    by_cases h : k = q <;> simp [aset, alookup, h]
  | cons p rest ih =>
    obtain ⟨k2, v2⟩ := p
    by_cases h2 : k2 = k
    · subst h2
      by_cases h : k2 = q <;> simp [aset, alookup, h, ih]
    · by_cases h : k2 = q
      · subst h
        have : ¬ k = k2 := fun hh => h2 hh.symm
        simp [aset, alookup, h2, this]
      · simp [aset, alookup, h2, h, ih]

theorem alookup_adel {α : Type} (m : List (String × α)) (k q : String) :
    alookup (adel m k) q = if k = q then none else alookup m q := by
  induction m with
  | nil =>
    by_cases h : k = q <;> simp [adel, alookup, h]
  | cons p rest ih =>
    obtain ⟨k2, v2⟩ := p
    by_cases h2 : k2 = k
    · subst h2
      by_cases h : k2 = q
      · subst h
        simpa [adel, alookup] using ih
      · simp [adel, alookup, h, ih]
    · by_cases h : k2 = q
      · subst h
        have hkq : ¬ k = k2 := fun hh => h2 hh.symm
        simp [adel, alookup, h2, hkq, ih]
      · simp [adel, alookup, h2, h, ih]

/- ## Rate-limit tracker (internal/scheduler/rate_limiter.go) -/

/-- State of RateLimitTracker.  Request timestamps are seconds as rationals.
The light-throttle fields are carried for completeness. -/
structure RateLimitTracker where
  requestTimes : List ℚ
  rateLimitWindow : ℚ
  rateLimitMaxRequests : Int
  rateLimitRemaining : Int
  rateLimitResetTime : ℚ
  isRateLimited : Bool

/-- Initial tracker state built by NewRateLimitTracker. -/
def newRateLimitTracker : RateLimitTracker :=
  { requestTimes := []
    rateLimitWindow := 60
    rateLimitMaxRequests := 0
    rateLimitRemaining := 0
    rateLimitResetTime := 0
    isRateLimited := false }

/-- Parsed values of the three rate-limit headers consumed by
updateFromHeaders.  The Sscanf string parsing is abstracted to its parsed
value; a header that is absent from the map is none. -/
structure HeaderVals where
  limit : Option Int
  remaining : Option Int
  reset : Option ℚ

/-- Embeds updateFromHeaders: each known header updates its field only when
its parsed value passes the sign guard in the source. -/
def updateFromHeaders (rlt : RateLimitTracker) (h : HeaderVals) : RateLimitTracker :=
  let rlt1 := match h.limit with
    | some v => if 0 < v then { rlt with rateLimitMaxRequests := v } else rlt
    | none => rlt
  let rlt2 := match h.remaining with
    | some v => if 0 ≤ v then { rlt1 with rateLimitRemaining := v } else rlt1
    | none => rlt1
  match h.reset with
  | some v => if 0 < v then { rlt2 with rateLimitResetTime := v } else rlt2
  | none => rlt2

/-- Embeds RecordRequest: append the request time, trim to the window when
the history holds more than 2000 entries, update header-driven fields, then
recompute the rate-limited flag. -/
def recordRequest (rlt : RateLimitTracker) (requestTime : ℚ) (success : Bool)
    (headers : Option HeaderVals) : RateLimitTracker :=
  let times := rlt.requestTimes ++ [requestTime]
  let times :=
    if 2000 < times.length then
      times.filter (fun t => requestTime - rlt.rateLimitWindow < t)
    else times
  let rlt := { rlt with requestTimes := times }
  let rlt := match headers with
    | some h => updateFromHeaders rlt h
    | none => rlt
  if success = false then
    { rlt with isRateLimited := true }
  else if 0 < rlt.rateLimitMaxRequests ∧ rlt.rateLimitMaxRequests ≤ rlt.requestTimes.length then
    { rlt with isRateLimited := true }
  else
    { rlt with isRateLimited := false }

/-- Embeds GetMinimumInterval: window divided by the discovered request
budget, scaled by the ticker count when it is positive; 0 when no budget is
known. -/
def RateLimitTracker.getMinimumInterval (rlt : RateLimitTracker) (tickerCount : Int) : ℚ :=
  if rlt.rateLimitMaxRequests ≤ 0 then 0
  else
    let minInterval := rlt.rateLimitWindow / (rlt.rateLimitMaxRequests : ℚ)
    if 0 < tickerCount then minInterval * (tickerCount : ℚ) else minInterval

/- ## Adaptive scheduler (internal/scheduler/scheduler.go) -/

/-- Per-ticker configuration record (internal/config/ticker_config.go). -/
structure TickerConfig where
  display : Bool
  collectionEnabled : Bool
  priority : String
  refreshRateMs : Option Int

/-- The slice of Settings the scheduler reads. -/
structure Settings where
  tickerConfigs : Option (List (String × TickerConfig))

/-- State of UnifiedAdaptiveScheduler relevant to interval calculation. -/
structure SchedulerState where
  tracker : RateLimitTracker
  enabledTickers : List String
  settings : Option Settings

/-- Configuration record for a ticker, following the nil checks of the
source: none when settings or the config map is nil or the ticker has no
entry. -/
def configOf (s : SchedulerState) (ticker : String) : Option TickerConfig :=
  match s.settings with
  | none => none
  | some st =>
    match st.tickerConfigs with
    | none => none
    | some cfgs => alookup cfgs ticker

/-- Embeds getTickerPriority: open-chart membership wins, then a present
configuration record decides (high, low, anything else medium), then the
enabled list gives medium, else low. -/
def getTickerPriority (s : SchedulerState) (ticker : String)
    (openCharts : List GoValue) : Nat :=
  if openCharts.any (fun c =>
      match c with
      | GoValue.str ct => ct = ticker
      | _ => false) then 0
  else
    match configOf s ticker with
    | some cfg =>
      if cfg.priority = "high" then 0
      else if cfg.priority = "low" then 2
      else 1
    | none =>
      if s.enabledTickers.contains ticker then 1 else 2

/-- Embeds getTickerRefreshRate: 0 when unset or explicitly 0, otherwise
the configured rate raised to the 1000 ms minimum. -/
def getTickerRefreshRate (s : SchedulerState) (ticker : String) : Int :=
  match configOf s ticker with
  | none => 0
  | some cfg =>
    match cfg.refreshRateMs with
    | none => 0
    | some rate =>
      if rate = 0 then 0
      else if rate < 1000 then 1000
      else rate

/-- Embeds CalculateInterval: priority table lookup, per-ticker refresh
override, then the rate-limit floor. -/
def calculateInterval (s : SchedulerState) (ticker : String)
    (openCharts : List GoValue) : ℚ :=
  let priority := getTickerPriority s ticker openCharts
  let tickerCount := s.enabledTickers.length
  let interval : ℚ :=
    if priority = 0 then 1
    else if priority = 1 then
      if tickerCount ≤ 5 then 6 else if tickerCount ≤ 20 then 10 else 15
    else
      if tickerCount ≤ 5 then 16 else if tickerCount ≤ 20 then 22 else 30
  let refreshRateMs := getTickerRefreshRate s ticker
  let interval := if 0 < refreshRateMs then (refreshRateMs : ℚ) / 1000 else interval
  let minInterval := s.tracker.getMinimumInterval (tickerCount : Int)
  if 0 < minInterval ∧ interval < minInterval then minInterval else interval

/- ## Spec-side statements about the scheduler -/

/-- Priority table of the specification, indexed by priority class and the
enabled-ticker count. -/
def specPriorityTable (priority : Nat) (n : Nat) : ℚ :=
  if priority = 0 then 1
  else if priority = 1 then
    if n ≤ 5 then 6 else if n ≤ 20 then 10 else 15
  else
    if n ≤ 5 then 16 else if n ≤ 20 then 22 else 30

/-- Interval computation written from the words of the claim: table value,
replaced by max(refresh rate, 1000) / 1000 on a non-zero override, then
raised to the rate-limit floor when that floor is positive. -/
def specInterval (s : SchedulerState) (ticker : String)
    (openCharts : List GoValue) : ℚ :=
  let n := s.enabledTickers.length
  let base := specPriorityTable (getTickerPriority s ticker openCharts) n
  let withOverride :=
    match configOf s ticker with
    | some cfg =>
      match cfg.refreshRateMs with
      | some r => if r ≠ 0 then ((max r 1000 : Int) : ℚ) / 1000 else base
      | none => base
    | none => base
  let floor := s.tracker.getMinimumInterval (n : Int)
  if 0 < floor then max withOverride floor else withOverride

/-- String tickers of the open-chart list, i.e. the chart items that pass
the string type assertion of the source. -/
def chartTickers (openCharts : List GoValue) : List String :=
  openCharts.filterMap (fun c =>
    match c with
    | GoValue.str ct => some ct
    | _ => none)

/-- Priority determination written from the words of the claim: displayed
set first, then an explicitly configured high or low, then the
enabled-for-collection set gives medium, else low. -/
def claimPriority (s : SchedulerState) (ticker : String)
    (openCharts : List GoValue) : Nat :=
  if ticker ∈ chartTickers openCharts then 0
  else if (configOf s ticker).map TickerConfig.priority = some "high" then 0
  else if (configOf s ticker).map TickerConfig.priority = some "low" then 2
  else if ticker ∈ s.enabledTickers then 1
  else 2

theorem refresh_rate_as_max (o : Option Int) :
    (match o with
     | none => (0 : Int)
     | some rate => if rate = 0 then 0 else if rate < 1000 then 1000 else rate) =
    (match o with
     | none => (0 : Int)
     | some r => if r ≠ 0 then max r 1000 else 0) := by
  cases o with
  | none => rfl
  | some r =>
    by_cases h0 : r = 0
    · simp [h0]
    · by_cases hlt : r < 1000
      · have hm : max r 1000 = 1000 := max_eq_right (le_of_lt hlt)
        simp [h0, hlt, hm]
      · have hm : max r 1000 = r := max_eq_left (not_lt.mp hlt)
        simp [h0, hlt, hm]

theorem getTickerRefreshRate_eq (s : SchedulerState) (ticker : String) :
    getTickerRefreshRate s ticker =
      match configOf s ticker with
      | none => (0 : Int)
      | some cfg =>
        match cfg.refreshRateMs with
        | none => (0 : Int)
        | some r => if r ≠ 0 then max r 1000 else 0 := by
  unfold getTickerRefreshRate
  cases configOf s ticker with
  | none => rfl
  | some cfg => exact refresh_rate_as_max cfg.refreshRateMs

/-- C1: for every scheduler state, ticker and open-chart set, the interval
returned by CalculateInterval is the priority-table value, replaced by
max(refresh rate override, 1000) / 1000 when a non-zero override is
configured, and finally raised to the positive rate-limit floor. -/
theorem floor_raise_as_max (f i : ℚ) :
    (if 0 < f ∧ i < f then f else i) = (if 0 < f then max i f else i) := by
  by_cases hf : 0 < f
  · by_cases hi : i < f
    · simp [hf, hi, max_eq_right (le_of_lt hi)]
    · simp [hf, hi, max_eq_left (not_lt.mp hi)]
  · simp [hf]

/-- C1: for every scheduler state, ticker and open-chart set, the interval
returned by CalculateInterval is the priority-table value, replaced by
max(refresh rate override, 1000) / 1000 when a non-zero override is
configured, and finally raised to the positive rate-limit floor. -/
theorem calculateInterval_matches_spec (s : SchedulerState) (ticker : String)
    (openCharts : List GoValue) :
    calculateInterval s ticker openCharts = specInterval s ticker openCharts := by
  unfold calculateInterval specInterval specPriorityTable
  rw [getTickerRefreshRate_eq]
  cases hc : configOf s ticker with
  | none =>
    simp only [hc]
    exact floor_raise_as_max _ _
  | some cfg =>
    cases hr : cfg.refreshRateMs with
    | none =>
      simp only [hc, hr]
      exact floor_raise_as_max _ _
    | some r =>
      by_cases h0 : r = 0
      · simp only [hc, hr, h0]
        simpa using floor_raise_as_max (s.tracker.getMinimumInterval (s.enabledTickers.length : Int)) _
      · have hmaxpos : (0 : Int) < max r 1000 :=
          lt_of_lt_of_le (by norm_num) (le_max_right r 1000)
        simp only [hc, hr]
        simp only [h0, if_neg, ne_eq, not_false_eq_true, if_true, hmaxpos, if_pos]
        simpa [hmaxpos] using floor_raise_as_max
          (s.tracker.getMinimumInterval (s.enabledTickers.length : Int))
          (((max r 1000 : Int) : ℚ) / 1000)

/-- Scheduler state used as the concrete counterexample for the priority
claim: the ticker has a configuration record whose priority is the string
medium, and it is not in the enabled list. -/
def prioCexState : SchedulerState :=
  { tracker := newRateLimitTracker
    enabledTickers := []
    settings := some (Settings.mk (some
      [("XYZ", TickerConfig.mk false false "medium" none)])) }

/-- C4 counterexample: a ticker with a configuration record whose priority
is neither high nor low, and which is not enabled, gets medium priority
from the code, while the claimed rule order gives low priority. -/
theorem getTickerPriority_config_medium_cex :
    getTickerPriority prioCexState "XYZ" [] = 1 ∧
      claimPriority prioCexState "XYZ" [] = 2 := by
  constructor <;> decide

/-- C4 amended: the priority determination applies the first matching rule
among: displayed set gives high; a present configuration record gives high
or low when explicitly configured and medium for any other configured
value; otherwise membership in the enabled-for-collection set gives medium;
otherwise low. -/
def amendedPriority (s : SchedulerState) (ticker : String)
    (openCharts : List GoValue) : Nat :=
  if ticker ∈ chartTickers openCharts then 0
  else
    match configOf s ticker with
    | some cfg =>
      if cfg.priority = "high" then 0
      else if cfg.priority = "low" then 2
      else 1
    | none => if ticker ∈ s.enabledTickers then 1 else 2

theorem any_chart_iff (openCharts : List GoValue) (ticker : String) :
    (openCharts.any (fun c =>
      match c with
      | GoValue.str ct => ct = ticker
      | _ => false) = true) ↔ ticker ∈ chartTickers openCharts := by
  rw [List.any_eq_true]
  unfold chartTickers
  rw [List.mem_filterMap]
  constructor
  · rintro ⟨c, hc, hmatch⟩
    cases c with
    | str ct =>
      simp only [decide_eq_true_eq] at hmatch
      exact ⟨GoValue.str ct, hc, by rw [hmatch]⟩
    | null => simp at hmatch
    | num q => simp at hmatch
    | boolean b => simp at hmatch
    | arr l => simp at hmatch
    | obj l => simp at hmatch
  · rintro ⟨c, hc, hmatch⟩
    cases c with
    | str ct =>
      simp only [Option.some_inj] at hmatch
      exact ⟨GoValue.str ct, hc, by simp [hmatch]⟩
    | null => simp at hmatch
    | num q => simp at hmatch
    | boolean b => simp at hmatch
    | arr l => simp at hmatch
    | obj l => simp at hmatch

/-- C4 amended theorem: getTickerPriority implements the amended rule
order, in which a present configuration record short-circuits the
enabled-set check and any configured priority other than high or low means
medium. -/
theorem getTickerPriority_eq_amended (s : SchedulerState) (ticker : String)
    (openCharts : List GoValue) :
    getTickerPriority s ticker openCharts = amendedPriority s ticker openCharts := by
  unfold getTickerPriority amendedPriority
  by_cases hchart : ticker ∈ chartTickers openCharts
  · rw [if_pos ((any_chart_iff openCharts ticker).mpr hchart), if_pos hchart]
  · rw [if_neg (fun h => hchart ((any_chart_iff openCharts ticker).mp h)), if_neg hchart]
    cases configOf s ticker with
    | some cfg => rfl
    | none => simp [List.elem_iff]

/- ## Request-history cap (claim C9) -/

theorem updateFromHeaders_requestTimes (rlt : RateLimitTracker) (h : HeaderVals) :
    (updateFromHeaders rlt h).requestTimes = rlt.requestTimes := by
  unfold updateFromHeaders
  cases h.limit <;> cases h.remaining <;> cases h.reset <;>
    simp only [] <;> split_ifs <;> rfl

theorem updateFromHeaders_rateLimitWindow (rlt : RateLimitTracker) (h : HeaderVals) :
    (updateFromHeaders rlt h).rateLimitWindow = rlt.rateLimitWindow := by
  unfold updateFromHeaders
  cases h.limit <;> cases h.remaining <;> cases h.reset <;>
    simp only [] <;> split_ifs <;> rfl

theorem recordRequest_requestTimes (rlt : RateLimitTracker) (t : ℚ) (success : Bool)
    (headers : Option HeaderVals) :
    (recordRequest rlt t success headers).requestTimes =
      if 2000 < rlt.requestTimes.length + 1 then
        (rlt.requestTimes ++ [t]).filter (fun x => t - rlt.rateLimitWindow < x)
      else rlt.requestTimes ++ [t] := by
  unfold recordRequest
  have hlen : (rlt.requestTimes ++ [t]).length = rlt.requestTimes.length + 1 := by
    simp
  cases headers with
  | none =>
    by_cases h : 2000 < rlt.requestTimes.length + 1 <;>
      · simp only [hlen, h, if_true, if_false, reduceIte]
        split_ifs <;> rfl
  | some hv =>
    by_cases h : 2000 < rlt.requestTimes.length + 1 <;>
      · simp only [hlen, h, if_true, if_false, reduceIte, updateFromHeaders_requestTimes]
        split_ifs <;> simp [updateFromHeaders_requestTimes]

theorem recordRequest_rateLimitWindow (rlt : RateLimitTracker) (t : ℚ) (success : Bool)
    (headers : Option HeaderVals) :
    (recordRequest rlt t success headers).rateLimitWindow = rlt.rateLimitWindow := by
  cases headers with
  | none =>
    simp only [recordRequest]
    split_ifs <;> rfl
  | some hv =>
    simp only [recordRequest]
    split_ifs <;> simp [updateFromHeaders_rateLimitWindow]

/-- Tracker states reached by repeatedly recording a request at time 0 with
no headers, starting from a fresh tracker. -/
def iterRecordZero : ℕ → RateLimitTracker
  | 0 => newRateLimitTracker
  | n + 1 => recordRequest (iterRecordZero n) 0 true none

theorem iterRecordZero_spec (n : ℕ) :
    (iterRecordZero n).requestTimes = List.replicate n (0 : ℚ) ∧
      (iterRecordZero n).rateLimitWindow = 60 := by
  induction n with
  | zero => exact ⟨rfl, rfl⟩
  | succ n ih =>
    obtain ⟨htimes, hwin⟩ := ih
    have hfilter :
        (List.replicate n (0 : ℚ) ++ [0]).filter (fun x => (0 : ℚ) - 60 < x) =
          List.replicate n (0 : ℚ) ++ [0] := by
      rw [List.filter_eq_self]
      intro a ha
      have ha0 : a = 0 := by
        rcases List.mem_append.mp ha with h | h
        · exact List.eq_of_mem_replicate h
        · simpa using h
      simp [ha0]
    have hrep : List.replicate n (0 : ℚ) ++ [0] = List.replicate (n + 1) (0 : ℚ) := by
      rw [List.replicate_succ' n 0]
    constructor
    · show (recordRequest (iterRecordZero n) 0 true none).requestTimes = _
      rw [recordRequest_requestTimes, htimes, hwin]
      by_cases h : 2000 < n + 1
      · rw [if_pos (by simpa [List.length_replicate] using h), hfilter, hrep]
      · rw [if_neg (by simpa [List.length_replicate] using h), hrep]
    · show (recordRequest (iterRecordZero n) 0 true none).rateLimitWindow = 60
      rw [recordRequest_rateLimitWindow]
      exact hwin

/-- C9 counterexample: after 2001 RecordRequest calls at the same time the
request history holds 2001 entries, so the history is not capped at 2000
entries after every call. -/
theorem recordRequest_cap_cex :
    (iterRecordZero 2001).requestTimes.length = 2001 := by
  rw [(iterRecordZero_spec 2001).1, List.length_replicate]

/-- C9 amended: whenever appending the recorded time makes the history
longer than 2000 entries, RecordRequest trims it to exactly the timestamps
strictly inside the window before the recorded time; in particular every
surviving timestamp is then within the window, but the 2000 cap itself is
not guaranteed. -/
theorem recordRequest_trims_to_window (rlt : RateLimitTracker) (t : ℚ)
    (success : Bool) (headers : Option HeaderVals)
    (h : 2000 < rlt.requestTimes.length + 1) :
    (recordRequest rlt t success headers).requestTimes =
      (rlt.requestTimes ++ [t]).filter (fun x => t - rlt.rateLimitWindow < x) ∧
    ∀ x ∈ (recordRequest rlt t success headers).requestTimes,
      t - rlt.rateLimitWindow < x := by
  have heq := recordRequest_requestTimes rlt t success headers
  rw [if_pos h] at heq
  refine ⟨heq, ?_⟩
  intro x hx
  rw [heq] at hx
  have := (List.mem_filter.mp hx).2
  simpa using this

/-- Tracker state with a full 2000-entry history, used to witness the
amended trimming theorem. -/
def fullHistoryTracker : RateLimitTracker :=
  { newRateLimitTracker with requestTimes := List.replicate 2000 (0 : ℚ) }

/-- Witness for the amended C9 theorem at a concrete overful tracker. -/
theorem recordRequest_trims_to_window_witness :
    2000 < fullHistoryTracker.requestTimes.length + 1 ∧
    ((recordRequest fullHistoryTracker 0 true none).requestTimes =
      (fullHistoryTracker.requestTimes ++ [0]).filter
        (fun x => (0 : ℚ) - fullHistoryTracker.rateLimitWindow < x) ∧
    ∀ x ∈ (recordRequest fullHistoryTracker 0 true none).requestTimes,
      (0 : ℚ) - fullHistoryTracker.rateLimitWindow < x) :=
  have hlen : 2000 < fullHistoryTracker.requestTimes.length + 1 := by
    show 2000 < (List.replicate 2000 (0 : ℚ)).length + 1
    rw [List.length_replicate]
    omega
  ⟨hlen, recordRequest_trims_to_window fullHistoryTracker 0 true none hlen⟩

/- ## Market dates (internal/utils/market_hours.go) -/

/-- Moment in Eastern Time: an absolute calendar day number (day 0 is a
Thursday, matching the Unix epoch) and the seconds elapsed since ET
midnight of that day.  The timezone conversion from a Unix timestamp to
this form abstracts the operating-system timezone database, which the
specification treats as a primitive service. -/
structure ETDateTime where
  day : Int
  sod : Nat

/-- Weekday of an absolute day number, with the Go convention Sunday = 0
through Saturday = 6. -/
def weekdayOf (day : Int) : Int := (day + 4) % 7

/-- Embeds IsWeekend: Saturday or Sunday. -/
def isWeekend (x : ETDateTime) : Bool :=
  decide (weekdayOf x.day = 6 ∨ weekdayOf x.day = 0)

/-- Embeds GetLastTradingDay: a weekend date moves back to the preceding
Friday, keeping the clock time, as AddDate does. -/
def getLastTradingDay (x : ETDateTime) : ETDateTime :=
  if weekdayOf x.day = 6 then { day := x.day - 1, sod := x.sod }
  else if weekdayOf x.day = 0 then { day := x.day - 2, sod := x.sod }
  else x

/-- Seconds of the 08:30 ET rollover instant. -/
def rolloverSod : Nat := 8 * 3600 + 30 * 60

/-- Embeds GetMarketDateForDate: weekends collapse to the preceding
Friday, otherwise a clock before 08:30 ET selects the previous day. -/
def getMarketDateForDate (x : ETDateTime) : ETDateTime :=
  if isWeekend x then getLastTradingDay x
  else if x.sod < rolloverSod then { day := x.day - 1, sod := x.sod }
  else x

/-- Date computed by WriteDataEntry for a row: the market date of the row
timestamp, truncated to midnight. -/
def writeEntryDate (x : ETDateTime) : ETDateTime :=
  { day := (getMarketDateForDate x).day, sod := 0 }

/-- Embeds the weekend adjustment of getDBPath: the directory day is the
preceding Friday when the stored entry date is a weekend. -/
def getDBPathDay (date : ETDateTime) : Int :=
  if isWeekend date then (getLastTradingDay date).day else date.day

/-- Directory day the writer uses for a row with the given ET timestamp:
WriteDataEntry derives the entry date, getDBPath applies the weekend
adjustment. -/
def writerDirDay (x : ETDateTime) : Int :=
  getDBPathDay (writeEntryDate x)

/-- Market day written from the words of the claim: the previous calendar
day strictly before 08:30 ET, the same day otherwise. -/
def claimMarketDay (x : ETDateTime) : Int :=
  if x.sod < rolloverSod then x.day - 1 else x.day

/-- Directory day written from the words of the claim: the claimed market
day, moved to the preceding Friday when it falls on a weekend. -/
def claimDirDay (x : ETDateTime) : Int :=
  let m := claimMarketDay x
  if weekdayOf m = 6 then m - 1
  else if weekdayOf m = 0 then m - 2
  else m

/-- C6: for every row timestamp, the directory day the writer uses equals
the claimed rule (previous day before 08:30 ET, then weekend collapse to
the preceding Friday), and that day is never a Saturday or Sunday. -/
theorem writerDirDay_matches_claim (x : ETDateTime) :
    writerDirDay x = claimDirDay x ∧
      weekdayOf (writerDirDay x) ≠ 6 ∧ weekdayOf (writerDirDay x) ≠ 0 := by
  obtain ⟨d, s⟩ := x
  unfold writerDirDay getDBPathDay writeEntryDate getMarketDateForDate isWeekend
    getLastTradingDay claimDirDay claimMarketDay weekdayOf rolloverSod
  simp only [decide_eq_true_eq]
  split_ifs <;> simp_all <;> omega

/- ## Batched writer pending rows and deduplication (internal/database/writer.go) -/

/-- Pending database write held by the writer.  The market date is carried
as an absolute ET day number. -/
structure PendingWrite where
  ticker : String
  timestamp : ℚ
  scalars : List (String × GoValue)
  profiles : List (String × GoValue)
  dateDay : Int

/-- Inner loop of the swap sort in deduplicateWrites, for one outer index:
walk the remaining writes carrying the current slot value, swapping
whenever the slot value is strictly larger; returns the final slot value
and the transformed remainder. -/
def pass (c : PendingWrite) : List PendingWrite → PendingWrite × List PendingWrite
  | [] => (c, [])
  | x :: xs =>
    if x.timestamp < c.timestamp then
      let r := pass x xs
      (r.1, c :: r.2)
    else
      let r := pass c xs
      (r.1, x :: r.2)

theorem pass_length (c : PendingWrite) (l : List PendingWrite) :
    (pass c l).2.length = l.length := by
  induction l generalizing c with
  | nil => rfl
  | cons x xs ih =>
    by_cases h : x.timestamp < c.timestamp <;> simp [pass, h, ih]

/-- Embeds the sorting phase of deduplicateWrites: the nested
compare-and-swap loops amount to repeatedly selecting the minimum into the
front slot. -/
def sortGo (l : List PendingWrite) : List PendingWrite :=
  match l with
  | [] => []
  | x :: xs =>
    let r := pass x xs
    r.1 :: sortGo r.2
termination_by l.length
decreasing_by simp [pass_length]

theorem pass_perm (c : PendingWrite) (l : List PendingWrite) :
    (pass c l).1 :: (pass c l).2 ≈ c :: l := by
  induction l generalizing c with
  | nil => rfl
  | cons x xs ih =>
    by_cases h : x.timestamp < c.timestamp
    · simp only [pass, h, if_pos]
      calc (pass x xs).1 :: c :: (pass x xs).2
          ≈ c :: (pass x xs).1 :: (pass x xs).2 := List.Perm.swap c (pass x xs).1 _
        _ ≈ c :: x :: xs := List.Perm.cons c (ih x)
    · simp only [pass, h, if_neg, not_false_eq_true, reduceIte]
      calc (pass c xs).1 :: x :: (pass c xs).2
          ≈ x :: (pass c xs).1 :: (pass c xs).2 := List.Perm.swap x (pass c xs).1 _
        _ ≈ x :: c :: xs := List.Perm.cons x (ih c)
        _ ≈ c :: x :: xs := List.Perm.swap c x xs

theorem pass_min (c : PendingWrite) (l : List PendingWrite) :
    (pass c l).1.timestamp ≤ c.timestamp ∧
      ∀ y ∈ (pass c l).2, (pass c l).1.timestamp ≤ y.timestamp := by
  induction l generalizing c with
  | nil => exact ⟨le_refl _, by simp [pass]⟩
  | cons x xs ih =>
    by_cases h : x.timestamp < c.timestamp
    · obtain ⟨h1, h2⟩ := ih x
      simp only [pass, h, if_pos]
      refine ⟨le_of_lt (lt_of_le_of_lt h1 h), ?_⟩
      intro y hy
      rcases List.mem_cons.mp hy with rfl | hy2
      · exact le_of_lt (lt_of_le_of_lt h1 h)
      · exact h2 y hy2
    · obtain ⟨h1, h2⟩ := ih c
      simp only [pass, h, if_neg, not_false_eq_true, reduceIte]
      refine ⟨h1, ?_⟩
      intro y hy
      rcases List.mem_cons.mp hy with rfl | hy2
      · exact le_trans h1 (not_lt.mp h)
      · exact h2 y hy2

theorem sortGo_perm_aux : ∀ (n : ℕ) (l : List PendingWrite), l.length = n →
    sortGo l ≈ l := by
  intro n
  induction n using Nat.strong_induction_on with
  | _ n ih =>
    intro l hl
    match l with
    | [] => rw [sortGo]
    | x :: xs =>
      rw [sortGo]
      have hlen : (pass x xs).2.length < n := by
        rw [pass_length]
        have hl2 : xs.length + 1 = n := by simpa using hl
        omega
      have hperm : sortGo (pass x xs).2 ≈ (pass x xs).2 :=
        ih _ hlen _ rfl
      calc (pass x xs).1 :: sortGo (pass x xs).2
          ≈ (pass x xs).1 :: (pass x xs).2 := List.Perm.cons _ hperm
        _ ≈ x :: xs := pass_perm x xs

theorem sortGo_perm (l : List PendingWrite) : sortGo l ≈ l :=
  sortGo_perm_aux l.length l rfl

theorem sortGo_sorted_aux : ∀ (n : ℕ) (l : List PendingWrite), l.length = n →
    List.Pairwise (fun a b => a.timestamp ≤ b.timestamp) (sortGo l) := by
  intro n
  induction n using Nat.strong_induction_on with
  | _ n ih =>
    intro l hl
    match l with
    | [] => simp [sortGo]
    | x :: xs =>
      rw [sortGo]
      have hlen : (pass x xs).2.length < n := by
        rw [pass_length]
        have hl2 : xs.length + 1 = n := by simpa using hl
        omega
      rw [List.pairwise_cons]
      constructor
      · intro b hb
        have hbmem : b ∈ (pass x xs).2 :=
          (sortGo_perm (pass x xs).2).mem_iff.mp hb
        exact (pass_min x xs).2 b hbmem
      · exact ih _ hlen _ rfl

theorem sortGo_sorted (l : List PendingWrite) :
    List.Pairwise (fun a b => a.timestamp ≤ b.timestamp) (sortGo l) :=
  sortGo_sorted_aux l.length l rfl

/-- Embeds the dropping loop of deduplicateWrites on the sorted list: a
write whose successor is within the tolerance is skipped, so only the last
write of each run survives. -/
def dedupKeep (tol : ℚ) : List PendingWrite → List PendingWrite
  | [] => []
  | [x] => [x]
  | x :: y :: rest =>
    if y.timestamp - x.timestamp ≤ tol then dedupKeep tol (y :: rest)
    else x :: dedupKeep tol (y :: rest)

/-- Embeds deduplicateWrites: early return on the empty list, sort by
timestamp, then drop every write whose successor is within the tolerance. -/
def deduplicateWrites (writes : List PendingWrite) (tol : ℚ) : List PendingWrite :=
  if writes.isEmpty then writes
  else dedupKeep tol (sortGo writes)

/-- Tolerance used by flushDate when deduplicating, 100 ms in seconds. -/
def dedupTolerance : ℚ := 1 / 10

theorem dedupKeep_sublist (tol : ℚ) (l : List PendingWrite) :
    (dedupKeep tol l).Sublist l := by
  induction l with
  | nil => simp [dedupKeep]
  | cons x xs ih =>
    match xs, ih with
    | [], _ => simp [dedupKeep]
    | y :: rest, ih =>
      by_cases h : y.timestamp - x.timestamp ≤ tol
      · simp only [dedupKeep, h, if_pos]
        exact ih.cons x
      · simp only [dedupKeep, h, if_neg, not_false_eq_true, reduceIte]
        exact ih.cons₂ x

theorem dedupKeep_pairwise (tol : ℚ) (l : List PendingWrite)
    (hs : List.Pairwise (fun a b => a.timestamp ≤ b.timestamp) l) :
    List.Pairwise (fun a b => tol < b.timestamp - a.timestamp) (dedupKeep tol l) := by
  induction l with
  | nil => simp [dedupKeep]
  | cons x xs ih =>
    match xs, ih with
    | [], _ => simp [dedupKeep]
    | y :: rest, ih =>
      have htail : List.Pairwise (fun a b => a.timestamp ≤ b.timestamp) (y :: rest) :=
        (List.pairwise_cons.mp hs).2
      by_cases h : y.timestamp - x.timestamp ≤ tol
      · simp only [dedupKeep, h, if_pos]
        exact ih htail
      · simp only [dedupKeep, h, if_neg, not_false_eq_true, reduceIte]
        rw [List.pairwise_cons]
        refine ⟨?_, ih htail⟩
        intro b hb
        have hbmem : b ∈ y :: rest := (dedupKeep_sublist tol (y :: rest)).mem hb
        have hyb : y.timestamp ≤ b.timestamp := by
          rcases List.mem_cons.mp hbmem with rfl | hbr
          · exact le_refl _
          · exact (List.pairwise_cons.mp htail).1 b hbr
        have hxy : tol < y.timestamp - x.timestamp := not_le.mp h
        linarith

theorem dedupKeep_ne_nil (tol : ℚ) (l : List PendingWrite) (hl : l ≠ []) :
    dedupKeep tol l ≠ [] := by
  induction l with
  | nil => exact absurd rfl hl
  | cons x xs ih =>
    match xs, ih with
    | [], _ => simp [dedupKeep]
    | y :: rest, ih =>
      by_cases h : y.timestamp - x.timestamp ≤ tol
      · simp only [dedupKeep, h, if_pos]
        exact ih (by simp)
      · simp only [dedupKeep, h, if_neg, not_false_eq_true, reduceIte]
        simp

theorem dedupKeep_getLast (tol : ℚ) (l : List PendingWrite) :
    (dedupKeep tol l).getLast? = l.getLast? := by
  induction l with
  | nil => rfl
  | cons x xs ih =>
    match xs, ih with
    | [], _ => rfl
    | y :: rest, ih =>
      by_cases h : y.timestamp - x.timestamp ≤ tol
      · simp only [dedupKeep, h, if_pos]
        rw [ih, List.getLast?_cons_cons]
      · simp only [dedupKeep, h, if_neg, not_false_eq_true, reduceIte]
        cases hM : dedupKeep tol (y :: rest) with
        | nil => exact absurd hM (dedupKeep_ne_nil tol (y :: rest) (by simp))
        | cons z zs =>
          rw [List.getLast?_cons_cons, ← hM, ih, List.getLast?_cons_cons]

/-- C3: deduplication with the 100 ms tolerance sorts by timestamp
ascending and keeps, of every run of writes whose consecutive differences
are within the tolerance, only the last; any two surviving writes differ
by more than 100 ms, the survivors are a subsequence of the sorted list,
and the final (latest) write always survives. -/
theorem deduplicateWrites_spec (writes : List PendingWrite) :
    sortGo writes ≈ writes ∧
    List.Pairwise (fun a b => a.timestamp ≤ b.timestamp) (sortGo writes) ∧
    deduplicateWrites writes dedupTolerance = dedupKeep dedupTolerance (sortGo writes) ∧
    (deduplicateWrites writes dedupTolerance).Sublist (sortGo writes) ∧
    List.Pairwise (fun a b => dedupTolerance < b.timestamp - a.timestamp)
      (deduplicateWrites writes dedupTolerance) ∧
    (deduplicateWrites writes dedupTolerance).getLast? = (sortGo writes).getLast? := by
  have hdef : deduplicateWrites writes dedupTolerance =
      dedupKeep dedupTolerance (sortGo writes) := by
    unfold deduplicateWrites
    by_cases h : writes.isEmpty
    · have hnil : writes = [] := List.isEmpty_iff.mp h
      subst hnil
      rw [sortGo]
      rfl
    · rw [if_neg h]
  refine ⟨sortGo_perm writes, sortGo_sorted writes, hdef, ?_, ?_, ?_⟩
  · rw [hdef]
    exact dedupKeep_sublist _ _
  · rw [hdef]
    exact dedupKeep_pairwise _ _ (sortGo_sorted writes)
  · rw [hdef]
    exact dedupKeep_getLast _ _

/- ## Writer state and WriteDataEntry (internal/database/writer.go) -/

/-- Write task as enqueued on the priority write queue
(internal/coordinator/write_queue.go). -/
structure WriteTask where
  ticker : String
  timestamp : ℚ
  data : List (String × GoValue)
  priority : Int

/-- Mutable maps of DataWriter that WriteDataEntry and FlushTicker touch. -/
structure WriterState where
  pendingWrites : List (String × List PendingWrite)
  firstPendingTime : List (String × ℚ)
  lastFlushTime : List (String × ℚ)

/-- Pending writes of a ticker, an absent key reading as the empty queue. -/
def pendingOf (st : WriterState) (ticker : String) : List PendingWrite :=
  (alookup st.pendingWrites ticker).getD []

/-- Zero-value test of the scalar drop optimisation: Go compares the
interface value against nil, integer 0, float 0.0, the empty string and
false. -/
def isZeroGoValue : GoValue → Bool
  | GoValue.null => true
  | GoValue.num q => q == 0
  | GoValue.str s => s == ""
  | GoValue.boolean b => b == false
  | _ => false

/-- Metadata keys skipped by the extraction loop of WriteDataEntry. -/
def isMetadataKey (k : String) : Bool :=
  k == "profiles" || k == "timestamp" || k == "ticker" ||
    k == "_response_headers" || k == "_response_time"

/-- Embeds the scalar and profile extraction of WriteDataEntry: a present
profiles object seeds the profile map, arrays and objects go to profiles,
other values go to scalars unless they are zero values. -/
def extractScalarsProfiles (data : List (String × GoValue)) :
    List (String × GoValue) × List (String × GoValue) :=
  let profiles0 :=
    match alookup data "profiles" with
    | some (GoValue.obj m) => m
    | _ => []
  data.foldl (fun acc kv =>
    if isMetadataKey kv.1 then acc
    else
      match kv.2 with
      | GoValue.arr v => (acc.1, aset acc.2 kv.1 (GoValue.arr v))
      | GoValue.obj v => (acc.1, aset acc.2 kv.1 (GoValue.obj v))
      | v => if isZeroGoValue v then acc else (aset acc.1 kv.1 v, acc.2))
    ([], profiles0)

/-- Count threshold for collection flushes
(config.FileWriteCountThresholdCollection). -/
def fileWriteCountThresholdCollection : Nat := 5

/-- Age threshold in seconds for collection flushes
(config.FileWriteIntervalCollectionSec). -/
def fileWriteIntervalCollectionSec : ℚ := 2

/-- Embeds shouldFlush: nothing pending means no flush, an active write
always flushes, otherwise the count threshold or the age of the first
pending write decides; a missing first-pending time flushes defensively. -/
def shouldFlush (st : WriterState) (now : ℚ) (ticker : String) (isActive : Bool) : Bool :=
  let pendingCount := (pendingOf st ticker).length
  if pendingCount = 0 then false
  else if isActive then true
  else if fileWriteCountThresholdCollection ≤ pendingCount then true
  else
    match alookup st.firstPendingTime ticker with
    | none => true
    | some firstPending =>
      if fileWriteIntervalCollectionSec ≤ now - firstPending then true else false

/-- Result of one WriteDataEntry call: the updated writer state, whether an
asynchronous flush was spawned, and the returned error. -/
structure WriteDataResult where
  state : WriterState
  flushSpawned : Bool
  err : Option String

/-- Embeds WriteDataEntry: extract scalars and profiles, derive the market
date from the row timestamp through the supplied timezone conversion,
append the pending write, track the first-pending time, and decide whether
to spawn a flush (always on the first-ever write).  The spawned flush runs
asynchronously and its errors are only logged, so the returned error is
the literal nil of the source. -/
def writeDataEntry (tz : ℚ → ETDateTime) (now : ℚ) (st : WriterState)
    (ticker : String) (timestamp : ℚ) (data : List (String × GoValue))
    (isActive : Bool) : WriteDataResult :=
  let sp := extractScalarsProfiles data
  let entryDay := (writeEntryDate (tz timestamp)).day
  let newPending := pendingOf st ticker ++
    [{ ticker := ticker, timestamp := timestamp, scalars := sp.1,
       profiles := sp.2, dateDay := entryDay }]
  let st1 := { st with pendingWrites := aset st.pendingWrites ticker newPending }
  let hasFlushHistory := (alookup st.lastFlushTime ticker).isSome
  let st2 :=
    if newPending.length = 1 then
      { st1 with firstPendingTime := aset st1.firstPendingTime ticker now }
    else st1
  let flush :=
    if hasFlushHistory = false then true
    else shouldFlush st2 now ticker isActive
  { state := st2, flushSpawned := flush, err := none }

/-- Retry loop of processTask around WriteDataEntry, threading the writer
state: break on a nil error, otherwise retry while attempts remain. -/
def processTaskWriteLoop (tz : ℚ → ETDateTime) (now : ℚ) (task : WriteTask) :
    Nat → WriterState → Nat → Option String → WriterState × Nat × Option String
  | 0, st, calls, lastErr => (st, calls, lastErr)
  | fuel + 1, st, calls, lastErr =>
    let r := writeDataEntry tz now st task.ticker task.timestamp task.data
      (task.priority = 0)
    match r.err with
    | none => (r.state, calls + 1, lastErr)
    | some e => processTaskWriteLoop tz now task fuel r.state (calls + 1) (some e)

/-- Embeds the write portion of processTask: up to 3 retried WriteDataEntry
calls, then a synchronous fallback call when the retries ended with an
error.  Returns the final state, the total number of WriteDataEntry calls
and whether the fallback ran. -/
def processTaskWrite (tz : ℚ → ETDateTime) (now : ℚ) (st : WriterState)
    (task : WriteTask) : WriterState × Nat × Bool :=
  let loopRes := processTaskWriteLoop tz now task 3 st 0 none
  match loopRes.2.2 with
  | none => (loopRes.1, loopRes.2.1, false)
  | some _ =>
    let r := writeDataEntry tz now loopRes.1 task.ticker task.timestamp task.data
      (task.priority = 0)
    (r.state, loopRes.2.1 + 1, true)

/-- C10: WriteDataEntry returns nil for every input, so the retry loop of
processTask succeeds on its first call and the synchronous fallback never
runs. -/
theorem writeDataEntry_never_errors (tz : ℚ → ETDateTime) (now : ℚ)
    (st : WriterState) (ticker : String) (timestamp : ℚ)
    (data : List (String × GoValue)) (isActive : Bool) (task : WriteTask) :
    (writeDataEntry tz now st ticker timestamp data isActive).err = none ∧
    (processTaskWrite tz now st task).2.1 = 1 ∧
    (processTaskWrite tz now st task).2.2 = false := by
  refine ⟨rfl, ?_, ?_⟩ <;> rfl

/- ## FlushTicker (internal/database/writer.go) -/

/-- Append a write to its date group, creating the group at the end on
first encounter; deterministic stand-in for the Go map grouping, whose
iteration order is modelled as first-encounter order. -/
def assocAppendPW (m : List (Int × List PendingWrite)) (k : Int) (w : PendingWrite) :
    List (Int × List PendingWrite) :=
  match m with
  | [] => [(k, [w])]
  | (k2, ws) :: rest =>
    if k2 = k then (k2, ws ++ [w]) :: rest
    else (k2, ws) :: assocAppendPW rest k w

/-- Embeds the by-date grouping of FlushTicker. -/
def groupByDate (pending : List PendingWrite) : List (Int × List PendingWrite) :=
  pending.foldl (fun acc w => assocAppendPW acc w.dateDay w) []

/-- Embeds the per-date flush loop of FlushTicker.  The flushDate call is
abstracted by the oracle flushOk, since its effect lives in the database:
a successful group leaves the writer state unchanged, a failing group
re-appends its writes to the ticker's pending queue and stops with the
error.  Returns the state, the error, and the groups flushed successfully. -/
def flushLoop (flushOk : Int → Bool) (ticker : String) :
    List (Int × List PendingWrite) → WriterState →
      WriterState × Option String × List (Int × List PendingWrite)
  | [], st => (st, none, [])
  | (day, ws) :: rest, st =>
    if flushOk day then
      let r := flushLoop flushOk ticker rest st
      (r.1, r.2.1, (day, ws) :: r.2.2)
    else
      let reAdded := aset st.pendingWrites ticker (pendingOf st ticker ++ ws)
      ({ st with pendingWrites := reAdded }, some "flush failed", [])

/-- Embeds FlushTicker: take the ticker's pending writes (nothing pending
returns immediately), clear them, reset the first-pending time, record the
flush time, group by date and run the per-date loop. -/
def flushTicker (flushOk : Int → Bool) (now : ℚ) (st : WriterState) (ticker : String) :
    WriterState × Option String × List (Int × List PendingWrite) :=
  let pending := pendingOf st ticker
  if pending.length = 0 then (st, none, [])
  else
    let st1 : WriterState :=
      { pendingWrites := aset st.pendingWrites ticker []
        firstPendingTime := adel st.firstPendingTime ticker
        lastFlushTime := aset st.lastFlushTime ticker now }
    flushLoop flushOk ticker (groupByDate pending) st1

theorem assocAppendPW_flatten (m : List (Int × List PendingWrite)) (k : Int)
    (w : PendingWrite) :
    ((assocAppendPW m k w).map Prod.snd).flatten ≈ ((m.map Prod.snd).flatten ++ [w]) := by
  induction m with
  | nil =>
    simp only [assocAppendPW, List.map_cons, List.map_nil, List.flatten_cons,
      List.flatten_nil, List.append_nil, List.nil_append]
    exact List.Perm.refl _
  | cons p rest ih =>
    obtain ⟨k2, ws⟩ := p
    by_cases h : k2 = k
    · simp only [assocAppendPW, h, if_pos, List.map_cons, List.flatten_cons]
      calc (ws ++ [w]) ++ (rest.map Prod.snd).flatten
          = ws ++ ([w] ++ (rest.map Prod.snd).flatten) := by rw [List.append_assoc]
        _ ≈ ws ++ ((rest.map Prod.snd).flatten ++ [w]) :=
            List.Perm.append_left ws (List.perm_append_comm)
        _ = (ws ++ (rest.map Prod.snd).flatten) ++ [w] := by rw [List.append_assoc]
    · simp only [assocAppendPW, h, if_neg, not_false_eq_true, reduceIte,
        List.map_cons, List.flatten_cons]
      calc ws ++ ((assocAppendPW rest k w).map Prod.snd).flatten
          ≈ ws ++ ((rest.map Prod.snd).flatten ++ [w]) := List.Perm.append_left ws ih
        _ = (ws ++ (rest.map Prod.snd).flatten) ++ [w] := by rw [List.append_assoc]

theorem groupByDate_foldl_flatten (l : List PendingWrite) :
    ∀ acc : List (Int × List PendingWrite),
      (((l.foldl (fun acc w => assocAppendPW acc w.dateDay w) acc).map Prod.snd).flatten) ≈
        ((acc.map Prod.snd).flatten ++ l) := by
  induction l with
  | nil =>
    intro acc
    simp only [List.foldl_nil, List.append_nil]
    exact List.Perm.refl _
  | cons w ws ih =>
    intro acc
    calc (((ws.foldl (fun acc w => assocAppendPW acc w.dateDay w)
            (assocAppendPW acc w.dateDay w)).map Prod.snd).flatten)
        ≈ (((assocAppendPW acc w.dateDay w).map Prod.snd).flatten ++ ws) := ih _
      _ ≈ (((acc.map Prod.snd).flatten ++ [w]) ++ ws) :=
          (assocAppendPW_flatten acc w.dateDay w).append_right ws
      _ = ((acc.map Prod.snd).flatten ++ (w :: ws)) := by
          rw [List.append_assoc]
          rfl

theorem groupByDate_flatten (pending : List PendingWrite) :
    (((groupByDate pending).map Prod.snd).flatten) ≈ pending := by
  simpa using groupByDate_foldl_flatten pending []

theorem flushLoop_spec (flushOk : Int → Bool) (ticker : String)
    (gs : List (Int × List PendingWrite)) (st : WriterState) :
    (flushLoop flushOk ticker gs st).2.2 = gs.takeWhile (fun g => flushOk g.1) ∧
    ((flushLoop flushOk ticker gs st).2.1 = none ↔
      gs.dropWhile (fun g => flushOk g.1) = []) ∧
    (flushLoop flushOk ticker gs st).1 =
      (match gs.dropWhile (fun g => flushOk g.1) with
       | [] => st
       | g :: _ =>
         { st with pendingWrites := aset st.pendingWrites ticker (pendingOf st ticker ++ g.2) }) := by
  induction gs with
  | nil => exact ⟨rfl, by simp [flushLoop, List.dropWhile], rfl⟩
  | cons g rest ih =>
    obtain ⟨day, ws⟩ := g
    by_cases h : flushOk day
    · obtain ⟨ih1, ih2, ih3⟩ := ih
      refine ⟨?_, ?_, ?_⟩
      · simp [flushLoop, h, List.takeWhile_cons, ih1]
      · simp only [flushLoop, h, if_pos, List.dropWhile_cons]
        simpa [h] using ih2
      · simp only [flushLoop, h, if_pos, List.dropWhile_cons]
        simpa [h] using ih3
    · refine ⟨?_, ?_, ?_⟩
      · simp only [flushLoop, h, if_neg, not_false_eq_true, reduceIte]
        simp [List.takeWhile_cons, h]
      · simp only [flushLoop, h, if_neg, not_false_eq_true, reduceIte]
        simp [List.dropWhile_cons, h]
      · simp only [flushLoop, h, if_neg, not_false_eq_true, reduceIte]
        simp [List.dropWhile_cons, h]

/-- First pending write of the C8 scenario, dated day 0. -/
def w1 : PendingWrite :=
  { ticker := "SPX", timestamp := 1, scalars := [], profiles := [], dateDay := 0 }

/-- Second pending write of the C8 scenario, dated day 1. -/
def w2 : PendingWrite :=
  { ticker := "SPX", timestamp := 2, scalars := [], profiles := [], dateDay := 1 }

/-- Writer state holding two pending writes for SPX on different market
dates. -/
def twoDateState : WriterState :=
  { pendingWrites := [("SPX", [w1, w2])], firstPendingTime := [], lastFlushTime := [] }

/-- Flush oracle that fails exactly on day 0. -/
def failDay0 : Int → Bool := fun d => decide (d ≠ 0)

/-- C8 counterexample: with two date groups pending and the first group's
flush failing, FlushTicker re-appends only the failing group, so the
second group's write is removed from the pending set without being handed
to any flush — it is silently lost. -/
theorem flushTicker_loses_later_group_cex :
    (flushTicker failDay0 100 twoDateState "SPX").2.2 = [] ∧
    pendingOf (flushTicker failDay0 100 twoDateState "SPX").1 "SPX" = [w1] ∧
    (flushTicker failDay0 100 twoDateState "SPX").2.1 = some "flush failed" ∧
    w2 ≠ w1 := by
  refine ⟨rfl, rfl, rfl, ?_⟩
  intro h
  have : w2.timestamp = w1.timestamp := by rw [h]
  simp [w1, w2] at this

/-- C8 amended: FlushTicker removes the ticker's pending writes, groups
them by market date, and flushes the groups in order: the groups before
the first failing one are handed to successful flushes, the first failing
group's writes are re-appended to the pending set and the error is
returned, and the writes of groups after the first failing one are dropped
from the pending set.  The date groups partition the removed writes. -/
theorem flushTicker_partitions (flushOk : Int → Bool) (now : ℚ)
    (st : WriterState) (ticker : String) :
    (((groupByDate (pendingOf st ticker)).map Prod.snd).flatten ≈ pendingOf st ticker) ∧
    (pendingOf st ticker = [] → flushTicker flushOk now st ticker = (st, none, [])) ∧
    (pendingOf st ticker ≠ [] →
      (flushTicker flushOk now st ticker).2.2 =
        (groupByDate (pendingOf st ticker)).takeWhile (fun g => flushOk g.1) ∧
      ((flushTicker flushOk now st ticker).2.1 = none ↔
        (groupByDate (pendingOf st ticker)).dropWhile (fun g => flushOk g.1) = []) ∧
      pendingOf (flushTicker flushOk now st ticker).1 ticker =
        (match (groupByDate (pendingOf st ticker)).dropWhile (fun g => flushOk g.1) with
         | [] => []
         | g :: _ => g.2)) := by
  refine ⟨groupByDate_flatten _, ?_, ?_⟩
  · intro hnil
    unfold flushTicker
    rw [hnil]
    rfl
  · intro hne
    have hlen : ¬ (pendingOf st ticker).length = 0 := by
      simpa [List.length_eq_zero] using hne
    have hflush : flushTicker flushOk now st ticker =
        flushLoop flushOk ticker (groupByDate (pendingOf st ticker))
          { pendingWrites := aset st.pendingWrites ticker []
            firstPendingTime := adel st.firstPendingTime ticker
            lastFlushTime := aset st.lastFlushTime ticker now } := by
      unfold flushTicker
      rw [if_neg hlen]
    set st1 : WriterState :=
      { pendingWrites := aset st.pendingWrites ticker []
        firstPendingTime := adel st.firstPendingTime ticker
        lastFlushTime := aset st.lastFlushTime ticker now } with hst1
    obtain ⟨h1, h2, h3⟩ := flushLoop_spec flushOk ticker
      (groupByDate (pendingOf st ticker)) st1
    refine ⟨by rw [hflush]; exact h1, by rw [hflush]; exact h2, ?_⟩
    rw [hflush, h3]
    have hempty : pendingOf st1 ticker = [] := by
      simp [pendingOf, hst1, alookup_aset]
    cases hdrop : (groupByDate (pendingOf st ticker)).dropWhile (fun g => flushOk g.1) with
    | nil => exact hempty
    | cons g rest =>
      simp [pendingOf, alookup_aset, hempty]

/-- Witness for the amended C8 theorem: the two-date scenario with every
flush succeeding keeps nothing pending and flushes both groups. -/
theorem flushTicker_partitions_witness :
    pendingOf twoDateState "SPX" ≠ [] ∧
    ((flushTicker (fun _ => true) 100 twoDateState "SPX").2.2 =
        (groupByDate (pendingOf twoDateState "SPX")).takeWhile
          (fun g => (fun _ => true) g.1) ∧
      ((flushTicker (fun _ => true) 100 twoDateState "SPX").2.1 = none ↔
        (groupByDate (pendingOf twoDateState "SPX")).dropWhile
          (fun g => (fun _ => true) g.1) = []) ∧
      pendingOf (flushTicker (fun _ => true) 100 twoDateState "SPX").1 "SPX" =
        (match (groupByDate (pendingOf twoDateState "SPX")).dropWhile
            (fun g => (fun _ => true) g.1) with
         | [] => []
         | g :: _ => g.2)) :=
  have hne : pendingOf twoDateState "SPX" ≠ [] := by
    have hv : pendingOf twoDateState "SPX" = [w1, w2] := rfl
    rw [hv]
    simp
  ⟨hne, (flushTicker_partitions (fun _ => true) 100 twoDateState "SPX").2.2 hne⟩

/- ## Priority write queue (internal/coordinator/write_queue.go) -/

/-- Embeds Enqueue on the pending map: store the latest task for the
ticker, overwriting any pending one. -/
def enqueueTask (st : List (String × WriteTask)) (ticker : String) (timestamp : ℚ)
    (data : List (String × GoValue)) (priority : Int) : List (String × WriteTask) :=
  aset st ticker { ticker := ticker, timestamp := timestamp, data := data, priority := priority }

/-- Embeds the dequeue step of processTask: take and remove the pending
task for the ticker if present, otherwise leave the map unchanged. -/
def processTaskRemove (st : List (String × WriteTask)) (ticker : String) :
    List (String × WriteTask) × Option WriteTask :=
  match alookup st ticker with
  | none => (st, none)
  | some task => (adel st ticker, some task)

/-- Operations observable on the pending map of the write queue. -/
inductive QueueOp where
  | enq (ticker : String) (timestamp : ℚ) (data : List (String × GoValue)) (priority : Int)
  | disp (ticker : String)

/-- One operation applied to the pending map. -/
def queueStep (st : List (String × WriteTask)) : QueueOp → List (String × WriteTask)
  | QueueOp.enq t ts d p => enqueueTask st t ts d p
  | QueueOp.disp t => (processTaskRemove st t).1

/-- Pending map after a whole sequence of enqueue and dispatch operations,
starting empty. -/
def runQueue (ops : List QueueOp) : List (String × WriteTask) :=
  ops.foldl queueStep []

/-- Scan a reversed operation list for the most recent operation touching
the ticker: an enqueue yields its task, a dispatch yields nothing. -/
def latestPendingAux : List QueueOp → String → Option WriteTask
  | [], _ => none
  | QueueOp.enq t ts d p :: rest, q =>
    if t = q then some { ticker := t, timestamp := ts, data := d, priority := p }
    else latestPendingAux rest q
  | QueueOp.disp t :: rest, q =>
    if t = q then none else latestPendingAux rest q

/-- Task of the most recent enqueue for the ticker not yet removed by a
dispatch, written from the words of the claim. -/
def latestPending (ops : List QueueOp) (q : String) : Option WriteTask :=
  latestPendingAux ops.reverse q

theorem alookup_processTaskRemove (st : List (String × WriteTask)) (t q : String) :
    alookup (processTaskRemove st t).1 q = if t = q then none else alookup st q := by
  cases h : alookup st t with
  | none =>
    by_cases htq : t = q
    · subst htq
      simp [processTaskRemove, h]
    · simp [processTaskRemove, h, htq]
  | some task =>
    simp [processTaskRemove, h, alookup_adel]

/- ## Data-collection coordinator (coordinator.go) -/

/-- Ticker with its planned endpoints. -/
structure QueryPlanItem where
  ticker : String
  endpoints : List String

/-- Single query of the query system. -/
structure Query where
  ticker : String
  endpoint : String

/-- Embeds aggregateResults: initialise an empty (non-nil) mapping for
every plan ticker, then merge each successful fetch result into its
ticker's mapping, skipping the two metadata keys.  A none value models a
nil Go map.  The result maps of the fanout are carried in insertion order,
a deterministic stand-in for Go map iteration.  The branches in which the
merge target is missing or nil cannot arise for plan-derived queries (Go
would crash on the nil-map write) and are modelled as no-ops. -/
def aggregateResults (plan : List QueryPlanItem)
    (results : List (Query × Option (List (String × GoValue)))) :
    List (String × Option (List (String × GoValue))) :=
  let init := plan.foldl (fun td item =>
    match alookup td item.ticker with
    | some _ => td
    | none => td ++ [(item.ticker, some [])]) []
  results.foldl (fun td qr =>
    match qr.2 with
    | none => td
    | some result =>
      match alookup td qr.1.ticker with
      | some (some data) =>
        aset td qr.1.ticker (some (result.foldl (fun d kv =>
          if kv.1 = "_response_headers" ∨ kv.1 = "_response_time" then d
          else aset d kv.1 kv.2) data))
      | _ => td) init

/-- Embeds the timestamp derivation of ProcessCompletedTickerData: an
API-supplied numeric timestamp, interpreted as milliseconds above ten
billion, else the current time. -/
def timestampOf (data : List (String × GoValue)) (now : ℚ) : ℚ :=
  match alookup data "timestamp" with
  | some (GoValue.num apiTimestamp) =>
    if (10000000000 : ℚ) < apiTimestamp then apiTimestamp / 1000 else apiTimestamp
  | _ => now

/-- Embeds the enqueue decision of ProcessCompletedTickerData: derive the
canonical timestamp, skip when shutting down, give priority 0 to displayed
tickers and 1 otherwise, then enqueue; the returned tuple is the argument
list of the Enqueue call, none when no write is enqueued. -/
def processCompletedTickerData (shuttingDown : Bool) (openCharts : List GoValue)
    (now : ℚ) (ticker : String) (data : List (String × GoValue)) :
    Option (String × ℚ × List (String × GoValue) × Int) :=
  let timestampSeconds := timestampOf data now
  if shuttingDown then none
  else
    let priority : Int :=
      if openCharts.any (fun c =>
          match c with
          | GoValue.str ct => ct = ticker
          | _ => false) then 0
      else 1
    some (ticker, timestampSeconds, data, priority)

/-- Embeds the per-ticker loop at the end of ProcessTickerBatch: every
ticker whose aggregated mapping is non-nil (the source checks nil-ness,
not emptiness) is handed to ProcessCompletedTickerData; returns the
Enqueue calls issued, in order. -/
def processTickerBatchEnqueues (plan : List QueryPlanItem)
    (results : List (Query × Option (List (String × GoValue))))
    (shuttingDown : Bool) (openCharts : List GoValue) (now : ℚ) :
    List (String × ℚ × List (String × GoValue) × Int) :=
  (aggregateResults plan results).foldl (fun acc td =>
    match td.2 with
    | some data =>
      match processCompletedTickerData shuttingDown openCharts now td.1 data with
      | some e => acc ++ [e]
      | none => acc
    | none => acc) []

/-- Plan with one ticker and one endpoint, used as the failing input of
claim C2. -/
def c2Plan : List QueryPlanItem :=
  [{ ticker := "SPX", endpoints := ["classic_zero"] }]

/-- C2: evaluation of the batch loop at the failing input.  When every
endpoint fetch for the ticker fails, the aggregated mapping is the empty
but non-nil map, so the nil check of the source does not skip it and a
write with an empty data map is enqueued for the ticker, contradicting the
claim that only tickers with non-empty aggregated data reach the write
queue.  The source's own unreachable No-data-collected branch shows the
intended behaviour. -/
theorem processTickerBatch_enqueues_empty_write :
    aggregateResults c2Plan [] = [("SPX", some [])] ∧
    processTickerBatchEnqueues c2Plan [] false [] 100 =
      [("SPX", (100 : ℚ), ([] : List (String × GoValue)), (1 : Int))] := by
  exact ⟨rfl, rfl⟩

/-- C7: after any sequence of Enqueue and dispatch operations, the pending
map holds, for each ticker, either nothing or exactly the task of the most
recent Enqueue for that ticker not yet removed by a dispatch; in
particular a newer enqueue overwrites any still-pending task. -/
theorem runQueue_latest_wins (ops : List QueueOp) (q : String) :
    alookup (runQueue ops) q = latestPending ops q := by
  induction ops using List.reverseRecOn with
  | nil => rfl
  | append_singleton l a ih =>
    have hrun : runQueue (l ++ [a]) = queueStep (runQueue l) a := by
      simp [runQueue, List.foldl_append]
    have hlatest : latestPending (l ++ [a]) q = latestPendingAux (a :: l.reverse) q := by
      simp [latestPending]
    rw [hrun, hlatest]
    cases a with
    | enq t ts d p =>
      by_cases htq : t = q
      · simp [queueStep, enqueueTask, latestPendingAux, htq, alookup_aset]
      · simp only [queueStep, enqueueTask, latestPendingAux, htq, if_neg,
          alookup_aset, if_false, reduceIte]
        exact ih
    | disp t =>
      by_cases htq : t = q
      · simp [queueStep, latestPendingAux, htq, alookup_processTaskRemove]
      · simp only [queueStep, latestPendingAux, htq, if_neg, if_false, reduceIte,
          alookup_processTaskRemove]
        exact ih

/- ## HTTP endpoint client (client.go) -/

/-- Outcome of a single HTTP GET, as observed by FetchEndpoint: either the
request itself failed, or a response arrived with a status, headers, a
body (whose read may have failed) and the JSON parse result of that body.
The network is abstracted as a function from the attempt index to its
outcome.  A JSON null body, which Go decodes to a nil map, is modelled as
the empty object. -/
inductive AttemptOutcome where
  | getError (msg : String)
  | response (status : Nat) (headers : List (String × String)) (bodyErr : Option String)
      (body : List Char) (parsed : Except String (List (String × GoValue)))
      (responseTime : ℚ)

/-- Errors FetchEndpoint can return, mirroring the error types of the api
package plus the fmt.Errorf wrappers. -/
inductive FetchError where
  | unknownEndpoint (endpoint : String)
  | subscriptionError (endpoint message : String)
  | rateLimitError (endpoint message retryAfter : String)
  | requestError (endpoint : String) (statusCode : Nat) (message : String)
      (originalError : Option String)
  | transportError (attempts : Nat) (lastErr : String)
  | bodyReadError (lastErr : String)
  | exhaustedError (attempts : Nat) (lastErr : String)

/-- Return value of FetchEndpoint together with the observable trace: how
many GETs were issued and which backoff sleeps ran, in order. -/
structure FetchOutput where
  result : Except FetchError (List (String × GoValue))
  attempts : Nat
  sleepsMs : List Nat

/-- Backoff table of the retry loop, in milliseconds. -/
def retryDelaysMs : List Nat := [100, 500, 1000]

/-- Maximum number of attempts of the retry loop. -/
def maxRetries : Nat := 3

/-- Header lookup as Go's Header.Get: empty string when absent. -/
def headerGet (headers : List (String × String)) (name : String) : String :=
  (alookup headers name).getD ""

/-- Body truncation of the non-200 error message: at most 200 bytes.  The
body bytes are modelled as characters. -/
def truncateBody (s : List Char) : List Char :=
  if 200 < s.length then s.take 200 else s

/-- Message of the generic non-200 request error. -/
def httpErrorMessage (status : Nat) (endpoint ticker : String) (body : List Char) : String :=
  "HTTP " ++ toString status ++ " error fetching " ++ endpoint ++ " for " ++
    ticker ++ ": " ++ String.mk (truncateBody body)

/-- Message of the invalid-JSON request error. -/
def jsonErrorMessage (endpoint ticker perr : String) : String :=
  "Invalid JSON response from " ++ endpoint ++ " for " ++ ticker ++ ": " ++ perr

/-- Embeds the success augmentation: collect the four rate-limit headers
that are present, attach them under the response-headers key when any
exist, and attach the measured response time. -/
def buildSuccessData (parsed : List (String × GoValue))
    (headers : List (String × String)) (rt : ℚ) : List (String × GoValue) :=
  let rlHeaders := ["X-RateLimit-Limit", "X-RateLimit-Remaining",
      "X-RateLimit-Reset", "Retry-After"].foldl
    (fun acc name =>
      if headerGet headers name ≠ "" then acc ++ [(name, headerGet headers name)]
      else acc) []
  let data1 :=
    if rlHeaders.length ≠ 0 then
      aset parsed "_response_headers"
        (GoValue.obj (rlHeaders.map (fun p => (p.1, GoValue.str p.2))))
    else parsed
  aset data1 "_response_time" (GoValue.num rt)

/-- Embeds the response handling of one loop iteration of FetchEndpoint:
status checks in source order, then the body read (whose failure is a
retryable transport error, signalled as the right injection), then the
JSON parse.  The left injection is a final result. -/
def handleResponse (endpoint ticker : String) (status : Nat)
    (headers : List (String × String)) (bodyErr : Option String) (body : List Char)
    (parsed : Except String (List (String × GoValue))) (rt : ℚ) :
    Except FetchError (List (String × GoValue)) ⊕ String :=
  if status = 401 then
    Sum.inl (Except.error (FetchError.subscriptionError endpoint
      ("Unauthorized access to " ++ endpoint ++ " for " ++ ticker ++
        ". Check API key and subscription tier.")))
  else if status = 403 then
    Sum.inl (Except.error (FetchError.subscriptionError endpoint
      ("Access forbidden to " ++ endpoint ++ " for " ++ ticker ++
        ". This endpoint requires a higher subscription tier.")))
  else if status = 429 then
    Sum.inl (Except.error (FetchError.rateLimitError endpoint
      ("Rate limit exceeded for " ++ endpoint ++ " on " ++ ticker)
      (headerGet headers "Retry-After")))
  else if ¬ status = 200 then
    Sum.inl (Except.error (FetchError.requestError endpoint status
      (httpErrorMessage status endpoint ticker body) none))
  else
    match bodyErr with
    | some e => Sum.inr e
    | none =>
      match parsed with
      | Except.error perr =>
        Sum.inl (Except.error (FetchError.requestError endpoint 0
          (jsonErrorMessage endpoint ticker perr) (some perr)))
      | Except.ok data => Sum.inl (Except.ok (buildSuccessData data headers rt))

/-- Embeds the retry loop of FetchEndpoint: a failed GET or a failed body
read retries with the next backoff while attempts remain, any other
response outcome is final. -/
def fetchLoop (outcomes : ℕ → AttemptOutcome) (endpoint ticker : String) :
    Nat → Nat → List Nat → String → FetchOutput
  | 0, attempt, sleeps, lastErr =>
    { result := Except.error (FetchError.exhaustedError maxRetries lastErr)
      attempts := attempt
      sleepsMs := sleeps }
  | fuel + 1, attempt, sleeps, lastErr =>
    match outcomes attempt with
    | AttemptOutcome.getError e =>
      if attempt < maxRetries - 1 then
        fetchLoop outcomes endpoint ticker fuel (attempt + 1)
          (sleeps ++ [retryDelaysMs.getD attempt 0]) e
      else
        { result := Except.error (FetchError.transportError maxRetries e)
          attempts := attempt + 1
          sleepsMs := sleeps }
    | AttemptOutcome.response status headers bodyErr body parsed rt =>
      match handleResponse endpoint ticker status headers bodyErr body parsed rt with
      | Sum.inl res => { result := res, attempts := attempt + 1, sleepsMs := sleeps }
      | Sum.inr e =>
        if attempt < maxRetries - 1 then
          fetchLoop outcomes endpoint ticker fuel (attempt + 1)
            (sleeps ++ [retryDelaysMs.getD attempt 0]) e
        else
          { result := Except.error (FetchError.bodyReadError e)
            attempts := attempt + 1
            sleepsMs := sleeps }

/-- Embeds FetchEndpoint: unknown endpoints fail before any request, known
endpoints run the retry loop. -/
def fetchEndpoint (endpoints : List (String × String)) (outcomes : ℕ → AttemptOutcome)
    (endpoint ticker : String) : FetchOutput :=
  match alookup endpoints endpoint with
  | none =>
    { result := Except.error (FetchError.unknownEndpoint endpoint)
      attempts := 0
      sleepsMs := [] }
  | some _ => fetchLoop outcomes endpoint ticker maxRetries 0 [] ""

/-- Transport outcomes in the sense of the claim: a failed request or a
failed body read of a 200 response. -/
def isTransportOutcome : AttemptOutcome → Bool
  | AttemptOutcome.getError _ => true
  | AttemptOutcome.response status _ bodyErr _ _ _ => status == 200 && bodyErr.isSome

/-- Trace properties of the claim for one FetchEndpoint run: at most 3
attempts; the sleeps are exactly the leading backoffs of the 100, 500,
1000 ms table; only transport outcomes are followed by another attempt;
the final attempt, when it is a non-transport response, determines the
result through the deterministic response handler; and a run of transport
failures only ends in a transport or body-read error. -/
def fetchEndpointClaim (outcomes : ℕ → AttemptOutcome) (endpoint ticker : String)
    (out : FetchOutput) : Prop :=
  (1 ≤ out.attempts ∧ out.attempts ≤ 3) ∧
  out.sleepsMs = retryDelaysMs.take (out.attempts - 1) ∧
  (∀ i, i + 1 < out.attempts → isTransportOutcome (outcomes i) = true) ∧
  (∀ status headers bodyErr body parsed rt,
    outcomes (out.attempts - 1) =
      AttemptOutcome.response status headers bodyErr body parsed rt →
    isTransportOutcome (outcomes (out.attempts - 1)) = false →
    Sum.inl out.result =
      handleResponse endpoint ticker status headers bodyErr body parsed rt) ∧
  ((∀ i, i < 3 → isTransportOutcome (outcomes i) = true) →
    ∃ msg, out.result = Except.error (FetchError.transportError 3 msg) ∨
      out.result = Except.error (FetchError.bodyReadError msg))

/-- Status mapping of the claim for the response handler: 401 and 403 give
a subscription error, 429 a rate-limit error carrying the Retry-After
header, any other non-200 a request error carrying the code and the
truncated body, invalid JSON on 200 a request error wrapping the parse
error, and a parsed 200 the augmented data. -/
def handleResponseClaim (endpoint ticker : String) : Prop :=
  ∀ (status : Nat) (headers : List (String × String)) (bodyErr : Option String)
    (body : List Char) (parsed : Except String (List (String × GoValue))) (rt : ℚ),
    (status = 401 → ∃ msg,
      handleResponse endpoint ticker status headers bodyErr body parsed rt =
        Sum.inl (Except.error (FetchError.subscriptionError endpoint msg))) ∧
    (status = 403 → ∃ msg,
      handleResponse endpoint ticker status headers bodyErr body parsed rt =
        Sum.inl (Except.error (FetchError.subscriptionError endpoint msg))) ∧
    (status = 429 → ∃ msg,
      handleResponse endpoint ticker status headers bodyErr body parsed rt =
        Sum.inl (Except.error (FetchError.rateLimitError endpoint msg
          (headerGet headers "Retry-After")))) ∧
    (status ≠ 200 → status ≠ 401 → status ≠ 403 → status ≠ 429 →
      handleResponse endpoint ticker status headers bodyErr body parsed rt =
        Sum.inl (Except.error (FetchError.requestError endpoint status
          (httpErrorMessage status endpoint ticker body) none))) ∧
    (status = 200 → ∀ e, bodyErr = some e →
      handleResponse endpoint ticker status headers bodyErr body parsed rt =
        Sum.inr e) ∧
    (status = 200 → bodyErr = none → ∀ perr, parsed = Except.error perr →
      handleResponse endpoint ticker status headers bodyErr body parsed rt =
        Sum.inl (Except.error (FetchError.requestError endpoint 0
          (jsonErrorMessage endpoint ticker perr) (some perr)))) ∧
    (status = 200 → bodyErr = none → ∀ data, parsed = Except.ok data →
      handleResponse endpoint ticker status headers bodyErr body parsed rt =
        Sum.inl (Except.ok (buildSuccessData data headers rt)))

theorem handleResponse_inr_elim (endpoint ticker : String) (status : Nat)
    (headers : List (String × String)) (bodyErr : Option String) (body : List Char)
    (parsed : Except String (List (String × GoValue))) (rt : ℚ) (e : String)
    (h : handleResponse endpoint ticker status headers bodyErr body parsed rt = Sum.inr e) :
    status = 200 ∧ bodyErr = some e := by
  unfold handleResponse at h
  split_ifs at h with h1 h2 h3 h4
  cases bodyErr with
  | some e2 =>
    simp only [Sum.inr.injEq] at h
    refine ⟨h4, ?_⟩
    rw [h]
  | none =>
    cases parsed with
    | error perr => exact Sum.noConfusion h
    | ok data => exact Sum.noConfusion h

theorem handleResponse_transport (endpoint ticker : String)
    (headers : List (String × String)) (body : List Char)
    (parsed : Except String (List (String × GoValue))) (rt : ℚ) (e : String) :
    handleResponse endpoint ticker 200 headers (some e) body parsed rt = Sum.inr e := by
  simp [handleResponse]

theorem retryDelaysMs_take_succ (a : Nat) (ha : a < 3) :
    retryDelaysMs.take (a + 1) = retryDelaysMs.take a ++ [retryDelaysMs.getD a 0] := by
  interval_cases a <;> rfl

theorem fetchEndpointClaim_terminal (outcomes : ℕ → AttemptOutcome)
    (endpoint ticker : String) (res : Except FetchError (List (String × GoValue)))
    (k : Nat) (hk : k ≤ 2)
    (hctx : ∀ i, i < k → isTransportOutcome (outcomes i) = true)
    (hD : ∀ status headers bodyErr body parsed rt,
      outcomes k = AttemptOutcome.response status headers bodyErr body parsed rt →
      isTransportOutcome (outcomes k) = false →
      Sum.inl res = handleResponse endpoint ticker status headers bodyErr body parsed rt)
    (hE : (∀ i, i < 3 → isTransportOutcome (outcomes i) = true) →
      ∃ msg, res = Except.error (FetchError.transportError 3 msg) ∨
        res = Except.error (FetchError.bodyReadError msg)) :
    fetchEndpointClaim outcomes endpoint ticker
      { result := res, attempts := k + 1, sleepsMs := retryDelaysMs.take k } := by
  unfold fetchEndpointClaim
  refine ⟨⟨?_, ?_⟩, ?_, ?_, ?_, ?_⟩
  · show 1 ≤ k + 1
    omega
  · show k + 1 ≤ 3
    omega
  · show retryDelaysMs.take k = retryDelaysMs.take (k + 1 - 1)
    rw [Nat.add_sub_cancel]
  · intro i hi
    have hi2 : i + 1 < k + 1 := hi
    exact hctx i (by omega)
  · intro st hd be b p rt heq htr
    have heq2 : outcomes k = AttemptOutcome.response st hd be b p rt := heq
    have htr2 : isTransportOutcome (outcomes k) = false := htr
    exact hD st hd be b p rt heq2 htr2
  · exact hE

theorem fetchLoop_claim (outcomes : ℕ → AttemptOutcome) (endpoint ticker : String) :
    ∀ (fuel attempt : Nat) (lastErr : String),
      fuel + attempt = 3 → attempt ≤ 2 →
      (∀ i, i < attempt → isTransportOutcome (outcomes i) = true) →
      attempt + 1 ≤ (fetchLoop outcomes endpoint ticker fuel attempt
        (retryDelaysMs.take attempt) lastErr).attempts ∧
      fetchEndpointClaim outcomes endpoint ticker
        (fetchLoop outcomes endpoint ticker fuel attempt
          (retryDelaysMs.take attempt) lastErr) := by
  intro fuel
  induction fuel with
  | zero =>
    intro attempt lastErr hfa hle hctx
    omega
  | succ f ih =>
    intro attempt lastErr hfa hle hctx
    cases ho : outcomes attempt with
    | getError e =>
      by_cases hlt : attempt < maxRetries - 1
      · have hctx2 : ∀ i, i < attempt + 1 → isTransportOutcome (outcomes i) = true := by
          intro i hi
          by_cases hia : i = attempt
          · rw [hia, ho]
            rfl
          · exact hctx i (by omega)
        have hm1 : maxRetries - 1 = 2 := rfl
        have hrec := ih (attempt + 1) e (by omega) (by omega) hctx2
        rw [retryDelaysMs_take_succ attempt (by omega)] at hrec
        have hred : fetchLoop outcomes endpoint ticker (f + 1) attempt
            (retryDelaysMs.take attempt) lastErr =
            fetchLoop outcomes endpoint ticker f (attempt + 1)
              (retryDelaysMs.take attempt ++ [retryDelaysMs.getD attempt 0]) e := by
          rw [fetchLoop, ho]
          simp [hlt]
        rw [hred]
        exact ⟨by omega, hrec.2⟩
      · have hm1 : maxRetries - 1 = 2 := rfl
        have ha2 : attempt = 2 := by omega
        subst ha2
        have hred : fetchLoop outcomes endpoint ticker (f + 1) 2
            (retryDelaysMs.take 2) lastErr =
            { result := Except.error (FetchError.transportError maxRetries e)
              attempts := 2 + 1
              sleepsMs := retryDelaysMs.take 2 } := by
          rw [fetchLoop, ho]
          simp [hlt]
        rw [hred]
        refine ⟨Nat.le_refl 3, fetchEndpointClaim_terminal outcomes endpoint ticker _ 2
          (by omega) (fun i hi => hctx i hi) ?_ ?_⟩
        · intro status headers bodyErr body parsed rt heq htr
          rw [ho] at heq
          exact AttemptOutcome.noConfusion heq
        · intro hall
          exact ⟨e, Or.inl rfl⟩
    | response status headers bodyErr body parsed rt =>
      cases hh : handleResponse endpoint ticker status headers bodyErr body parsed rt with
      | inl res =>
        have hred : fetchLoop outcomes endpoint ticker (f + 1) attempt
            (retryDelaysMs.take attempt) lastErr =
            { result := res
              attempts := attempt + 1
              sleepsMs := retryDelaysMs.take attempt } := by
          rw [fetchLoop, ho]
          simp [hh]
        rw [hred]
        refine ⟨Nat.le_refl (attempt + 1), fetchEndpointClaim_terminal outcomes endpoint
          ticker _ attempt hle (fun i hi => hctx i hi) ?_ ?_⟩
        · intro s2 h2 be2 b2 p2 rt2 heq htr
          rw [ho] at heq
          obtain ⟨hs, hhd, hbe, hb, hp, hrt⟩ := AttemptOutcome.response.inj heq
          subst hs
          subst hhd
          subst hbe
          subst hb
          subst hp
          subst hrt
          exact hh.symm
        · intro hall
          have htr := hall attempt (by omega)
          rw [ho] at htr
          simp only [isTransportOutcome, Bool.and_eq_true, beq_iff_eq,
            Option.isSome_iff_exists] at htr
          obtain ⟨hs, e2, hbe⟩ := htr
          subst hs
          subst hbe
          rw [handleResponse_transport] at hh
          exact Sum.noConfusion hh
      | inr e =>
        have htrue : isTransportOutcome (outcomes attempt) = true := by
          rw [ho]
          obtain ⟨hs, hbe⟩ := handleResponse_inr_elim endpoint ticker status headers
            bodyErr body parsed rt e hh
          subst hs
          subst hbe
          rfl
        by_cases hlt : attempt < maxRetries - 1
        · have hctx2 : ∀ i, i < attempt + 1 → isTransportOutcome (outcomes i) = true := by
            intro i hi
            by_cases hia : i = attempt
            · rw [hia]
              exact htrue
            · exact hctx i (by omega)
          have hm1 : maxRetries - 1 = 2 := rfl
          have hrec := ih (attempt + 1) e (by omega) (by omega) hctx2
          rw [retryDelaysMs_take_succ attempt (by omega)] at hrec
          have hred : fetchLoop outcomes endpoint ticker (f + 1) attempt
              (retryDelaysMs.take attempt) lastErr =
              fetchLoop outcomes endpoint ticker f (attempt + 1)
                (retryDelaysMs.take attempt ++ [retryDelaysMs.getD attempt 0]) e := by
            rw [fetchLoop, ho]
            simp [hh, hlt]
          rw [hred]
          exact ⟨by omega, hrec.2⟩
        · have hm1 : maxRetries - 1 = 2 := rfl
          have ha2 : attempt = 2 := by omega
          subst ha2
          have hred : fetchLoop outcomes endpoint ticker (f + 1) 2
              (retryDelaysMs.take 2) lastErr =
              { result := Except.error (FetchError.bodyReadError e)
                attempts := 2 + 1
                sleepsMs := retryDelaysMs.take 2 } := by
            rw [fetchLoop, ho]
            simp [hh, hlt]
          rw [hred]
          refine ⟨Nat.le_refl 3, fetchEndpointClaim_terminal outcomes endpoint ticker _ 2
            (by omega) (fun i hi => hctx i hi) ?_ ?_⟩
          · intro s2 h2 be2 b2 p2 rt2 heq htr
            rw [htrue] at htr
            exact Bool.noConfusion htr
          · intro hall
            exact ⟨e, Or.inr rfl⟩

/-- C5: FetchEndpoint on a known endpoint issues at most 3 attempts whose
backoff sleeps are the leading entries of the 100 ms, 500 ms, 1 s table,
retries only on transport outcomes (failed request or failed body read),
and maps the final response deterministically: 401 and 403 to a
subscription error, 429 to a rate-limit error carrying the Retry-After
header, any other non-200 to a request error carrying the code and at most
200 bytes of the body, and unparseable JSON on 200 to a request error
wrapping the parse error. -/
theorem fetchEndpoint_spec (endpoints : List (String × String))
    (outcomes : ℕ → AttemptOutcome) (endpoint ticker : String)
    (hknown : alookup endpoints endpoint ≠ none) :
    fetchEndpointClaim outcomes endpoint ticker
      (fetchEndpoint endpoints outcomes endpoint ticker) ∧
    handleResponseClaim endpoint ticker ∧
    (∀ s : List Char, (truncateBody s).length ≤ 200) := by
  refine ⟨?_, ?_, ?_⟩
  · unfold fetchEndpoint
    cases hl : alookup endpoints endpoint with
    | none => exact absurd hl hknown
    | some tmpl =>
      exact (fetchLoop_claim outcomes endpoint ticker 3 0 "" rfl (by omega)
        (by intro i hi; omega)).2
  · intro status headers bodyErr body parsed rt
    refine ⟨?_, ?_, ?_, ?_, ?_, ?_, ?_⟩
    · rintro rfl
      exact ⟨_, rfl⟩
    · rintro rfl
      exact ⟨_, rfl⟩
    · rintro rfl
      exact ⟨_, rfl⟩
    · intro h200 h401 h403 h429
      simp [handleResponse, h200, h401, h403, h429]
    · rintro rfl e rfl
      simp [handleResponse]
    · rintro rfl rfl perr rfl
      simp [handleResponse]
    · rintro rfl rfl data rfl
      simp [handleResponse]
  · intro s
    unfold truncateBody
    by_cases h : 200 < s.length
    · simp [h]
    · simpa [h] using le_of_not_lt h

/-- Witness for the C5 theorem at a concrete endpoint table and a network
whose every attempt fails. -/
theorem fetchEndpoint_spec_witness :
    alookup [("classic_zero", "tmpl")] "classic_zero" ≠ none ∧
    (fetchEndpointClaim (fun _ => AttemptOutcome.getError "network down")
        "classic_zero" "SPX"
        (fetchEndpoint [("classic_zero", "tmpl")]
          (fun _ => AttemptOutcome.getError "network down") "classic_zero" "SPX") ∧
      handleResponseClaim "classic_zero" "SPX" ∧
      (∀ s : List Char, (truncateBody s).length ≤ 200)) :=
  ⟨by decide,
   fetchEndpoint_spec [("classic_zero", "tmpl")]
     (fun _ => AttemptOutcome.getError "network down") "classic_zero" "SPX" (by decide)⟩

end MGT
